import Mathlib

/-!
Verification of the oneDNN graph partitioning / fusion-compiler core
(third_party/ideep/mkl-dnn): a shallow embedding of the graph model
(interface/graph.hpp), the compiler-backend partitioner
(backend/graph_compiler/patterns/pattern_utils.hpp), the dnnl pass pipeline
(backend/dnnl/passes/utils.hpp), the dnnl kernel execution path
(backend/dnnl/kernels/matmul.hpp), the layout-id manager
(backend/dnnl/dnnl_backend.hpp) and the buffer scheduler
(backend/graph_compiler/core/.../transform/buffer_schedule.hpp),
together with theorems settling the specification's claims about them.

Ops are identified by their integer id (the C++ identifies ops by id and,
within one graph instance, by pointer; ids are unique per graph).  Values are
identified by integer ids in a per-graph value table, mirroring the shared
`value_t` objects referenced from producer and consumer ops.
-/

namespace OneDnnGraph

/-- Status codes (interface/c_types_map.hpp is not under src/; the enumerators
used by the embedded code are taken from the call sites in
interface/graph.hpp and backend/dnnl, and from spec section 7). -/
inductive Status where
  | success
  | invalid_op
  | invalid_shape
  | invalid_argument
  | unsupported_status
  | unimplemented
deriving DecidableEq, Repr

/-- Layout types of a logical tensor (interface/logical_tensor.hpp is not
under src/; the constructors mirror `layout_type::undef/any/strided/opaque`
used by pattern_utils.hpp). -/
inductive LayoutType where
  | undef
  | any
  | strided
  | opaqueT
deriving DecidableEq, Repr

/-- A logical tensor descriptor.  Modelled from the spec (section 3, Value)
and the fields read by pattern_utils.hpp: `layout_type`, `ndims`, `dims`,
`layout.strides`.  The rank is `dims.length`; a rank-unknown descriptor
(C `ndims = -1`) is represented by an empty `dims` list, and an unknown
dimension (C `-1`) by a negative entry. -/
structure LogicalTensor where
  layout : LayoutType
  dims : List Int
  strides : List Int
deriving DecidableEq, Repr

/-- A value of the dataflow graph.  Modelled from the spec (section 3):
interface/value.hpp is not under src/.  A value has at most one producing op
and a list of consuming ops; `ltensor` is its logical-tensor descriptor.
Consumers are recorded by op id (the C++ stores (op, input-slot) pairs; the
slot is never inspected by the embedded code). -/
structure Value where
  vid : Nat
  producer : Option Nat
  consumers : List Nat
  ltensor : LogicalTensor
deriving DecidableEq, Repr

/-- An operator node.  Modelled from the spec (section 3, Operator):
interface/op.hpp is not under src/.  `inputs` and `outputs` are the ordered
lists of value ids; `attrs` is the attribute map (attribute id to scalar). -/
structure Op where
  oid : Nat
  kind : Nat
  attrs : List (Nat × Int)
  inputs : List Nat
  outputs : List Nat
deriving DecidableEq, Repr

/-- An op schema.  Modelled from the spec (section 6, op schema registry):
interface/op_schema.hpp is not under src/.  `shape_infer` returns the new
output descriptors on success and `none` on a non-success status. -/
structure OpSchema where
  set_default_attribute : Op → Op
  verify : Op → Bool
  shape_infer : Op → List LogicalTensor → List LogicalTensor → Option (List LogicalTensor)

/-- A compiler-backend partition as built by `pattern_utils_t::set_partitions`
(compiler_partition_impl.hpp is not under src/; per the spec, section 3, a
partition records the op set and the boundary input/output values, here by
id.  `add_input_tensor`/`add_output_tensor` are modelled as list appends). -/
structure CompilerPartition where
  pops : List Nat
  pinputs : List Nat
  poutputs : List Nat
deriving DecidableEq, Repr

/-- The graph (`dnnl_graph_graph` in interface/graph.hpp): a list of ops, the
shared value table, and the partitions registered by `add_partition`. -/
structure Graph where
  ops : List Op
  vals : List Value
  partitions : List CompilerPartition
deriving DecidableEq, Repr

/-- Look up an op by id (ops are referenced by pointer in the C++; the
default is never relevant when the id is present). -/
def find_op (g : Graph) (oid : Nat) : Op :=
  (g.ops.find? (fun op => op.oid == oid)).getD ⟨oid, 0, [], [], []⟩

/-- Look up a value by id in the graph's value table. -/
def find_value (g : Graph) (vid : Nat) : Value :=
  (g.vals.find? (fun v => v.vid == vid)).getD ⟨vid, none, [], ⟨LayoutType.undef, [], []⟩⟩

/-- `value_t::set_producer`: record `oid` as the producer of value `vid`. -/
def set_producer (vals : List Value) (vid : Nat) (oid : Nat) : List Value :=
  vals.map (fun v => if v.vid == vid then { v with producer := some oid } else v)

/-- The insertion done by `add_op` after validation: push the op and set it as
the producer of each of its output values (graph.hpp lines 114-117). -/
def insert_op (g : Graph) (op : Op) : Graph :=
  { g with
    ops := g.ops ++ [op],
    vals := op.outputs.foldl (fun vs vid => set_producer vs vid op.oid) g.vals }

/-- `dnnl_graph_graph::add_op` (graph.hpp lines 99-120): if an op with the
same id is already present, do nothing and return success; otherwise apply
the registered schema's default attributes, verify, and insert (the null
pointer check is not representable: the embedding has no null ops).  `reg`
is the op-schema registry (`op_schema_registry_t::get_op_schema`). -/
def add_op (reg : Nat → Option OpSchema) (g : Graph) (l_n : Op) : Status × Graph :=
  if g.ops.any (fun op => op.oid == l_n.oid) then
    (Status.success, g)
  else
    match reg l_n.kind with
    | some opm =>
      let tmp_ln := opm.set_default_attribute l_n
      if opm.verify tmp_ln then (Status.success, insert_op g tmp_ln)
      else (Status.invalid_op, g)
    | none => (Status.success, insert_op g l_n)

/-! ### Partitioner: `pattern_utils_t::set_partitions` and the boundary
logical-tensor validity check (pattern_utils.hpp). -/

/-- The comparator used to sort dimension indices in
`check_logical_tensor_validity` (pattern_utils.hpp lines 74-77): by stride,
ties broken by size. -/
def lt_index_cmp (size strides : List Int) (i j : Nat) : Bool :=
  if strides.getD i 0 == strides.getD j 0 then
    decide (size.getD i 0 < size.getD j 0)
  else
    decide (strides.getD i 0 < strides.getD j 0)

/-- Stable insertion used to model `std::sort` on the index vector (the
comparator is a strict weak order; tie order never affects the check). -/
def insert_by (cmp : Nat → Nat → Bool) (x : Nat) : List Nat → List Nat
  | [] => [x]
  | y :: ys => if cmp x y then x :: y :: ys else y :: insert_by cmp x ys

/-- Sort a list of indices with comparator `cmp` (models `std::sort`). -/
def sort_by (cmp : Nat → Nat → Bool) (l : List Nat) : List Nat :=
  l.foldr (insert_by cmp) []

/-- `check_logical_tensor_validity` (pattern_utils.hpp lines 66-86): the
tensor must have strided layout, positive rank, and dense (contiguous)
strides: after sorting dimension indices by stride the smallest stride is 1
and each next stride is the previous stride times the previous size. -/
def check_logical_tensor_validity (lt : LogicalTensor) : Bool :=
  if lt.layout != LayoutType.strided then false
  else
    let n := lt.dims.length
    if n == 0 then false
    else
      let indices := sort_by (lt_index_cmp lt.dims lt.strides) (List.range n)
      (lt.strides.getD (indices.getD 0 0) 0 == 1) &&
      (List.range (n - 1)).all (fun i =>
        lt.strides.getD (indices.getD (i + 1) 0) 0 ==
          lt.strides.getD (indices.getD i 0) 0 * lt.dims.getD (indices.getD i 0) 0)

/-- `check_inputs_outputs_validity` (pattern_utils.hpp lines 88-98), applied
to the logical tensors of the recorded boundary value ids. -/
def check_inputs_outputs_validity (g : Graph) (ins outs : List Nat) : Bool :=
  ins.all (fun vid => check_logical_tensor_validity (find_value g vid).ltensor) &&
  outs.all (fun vid => check_logical_tensor_validity (find_value g vid).ltensor)

/-- The partition-input scan of `set_partitions` (pattern_utils.hpp lines
117-124): for each matched op, an input value with no producer, or whose
producer is not in the matched set `ms`, is recorded as a partition input. -/
def partition_inputs (g : Graph) (ms : List Nat) : List Nat :=
  ms.flatMap (fun oid =>
    (find_op g oid).inputs.filter (fun vid =>
      match (find_value g vid).producer with
      | none => true
      | some pid => ! ms.contains pid))

/-- The `is_output` test of `set_partitions` (pattern_utils.hpp lines
126-137): a value is a partition output if it has no consumers or some
consumer outside the matched set. -/
def is_output_value (g : Graph) (ms : List Nat) (vid : Nat) : Bool :=
  let cs := (find_value g vid).consumers
  cs.isEmpty || cs.any (fun c => ! ms.contains c)

/-- The partition-output scan of `set_partitions` (pattern_utils.hpp lines
126-139). -/
def partition_outputs (g : Graph) (ms : List Nat) : List Nat :=
  ms.flatMap (fun oid => (find_op g oid).outputs.filter (is_output_value g ms))

/-- The partition a single accepted match would produce: its op set is the
match itself, its boundary values are the recorded input/output scans. -/
def make_partition (g : Graph) (ms : List Nat) : CompilerPartition :=
  { pops := ms, pinputs := partition_inputs g ms, poutputs := partition_outputs g ms }

/-- The validity gate of `set_partitions` (pattern_utils.hpp lines 142-144):
a match is kept only if all its boundary logical tensors are valid. -/
def accept_match (g : Graph) (ms : List Nat) : Bool :=
  check_inputs_outputs_validity g (partition_inputs g ms) (partition_outputs g ms)

/-- The list of partitions created by `pattern_utils_t::set_partitions`
(pattern_utils.hpp lines 100-155) for the given accepted matches: each match
is turned into a partition unless its boundary validity check fails, in
which case it is skipped silently (`continue`). -/
def set_partitions_list (g : Graph) (fusion_ops : List (List Nat)) : List CompilerPartition :=
  fusion_ops.filterMap (fun ms =>
    if accept_match g ms then some (make_partition g ms) else none)

/-- `set_partitions` as a graph transformation: the created partitions are
registered with `backend_graph.add_partition`; the function returns no
status and leaves the op list and value table untouched. -/
def set_partitions (g : Graph) (fusion_ops : List (List Nat)) : Graph :=
  { g with partitions := g.partitions ++ set_partitions_list g fusion_ops }

/-! ### Shape inference: `dnnl_graph_graph::infer_shape` (graph.hpp lines
248-295). -/

/-- `get_input_values` (graph.hpp lines 166-186): values whose producer is
absent or is not an op of this graph. -/
def get_input_values (g : Graph) : List Nat :=
  g.ops.flatMap (fun op =>
    op.inputs.filter (fun vid =>
      match (find_value g vid).producer with
      | none => true
      | some pid => ! g.ops.any (fun o => o.oid == pid)))

/-- `get_output_values` (graph.hpp lines 193-218): values with no consumers
or with some consumer outside this graph. -/
def get_output_values (g : Graph) : List Nat :=
  g.ops.flatMap (fun op =>
    op.outputs.filter (fun vid =>
      let cs := (find_value g vid).consumers
      cs.isEmpty || cs.any (fun c => ! g.ops.any (fun o => o.oid == c))))

/-- `logical_tensor_wrapper_t::is_shape_unknown`.  Modelled from the spec
(section 4.1, "fails ... if any input has unresolved shape"):
interface/logical_tensor.hpp is not under src/.  A shape is unknown when the
rank is unknown (empty `dims`) or some dimension is the unknown marker (a
negative entry). -/
def is_shape_unknown (lt : LogicalTensor) : Bool :=
  lt.dims.isEmpty || lt.dims.any (fun d => decide (d < 0))

/-- `value_t::set_logical_tensor` on the value table. -/
def set_value_lt (vals : List Value) (vid : Nat) (lt : LogicalTensor) : List Value :=
  vals.map (fun v => if v.vid == vid then { v with ltensor := lt } else v)

/-- The output write-back of one shape-inference step (graph.hpp lines
289-291): each output value of `op` receives the corresponding inferred
descriptor. -/
def set_output_lts (g : Graph) (op : Op) (outs : List LogicalTensor) : Graph :=
  { g with
    vals := (List.zip op.outputs outs).foldl (fun vs p => set_value_lt vs p.1 p.2) g.vals }

/-- One op's shape-inference step, the callback of the topological visit in
`infer_shape` (graph.hpp lines 259-294): no registered schema gives
`invalid_op`; a failing `shape_infer` gives `invalid_shape`; on success the
op's output value descriptors are updated. -/
def infer_step (reg : Nat → Option OpSchema) (g : Graph) (op : Op) : Status × Graph :=
  match reg op.kind with
  | none => (Status.invalid_op, g)
  | some opm =>
    match opm.shape_infer op (op.inputs.map (fun vid => (find_value g vid).ltensor))
        (op.outputs.map (fun vid => (find_value g vid).ltensor)) with
    | none => (Status.invalid_shape, g)
    | some new_outs => (Status.success, set_output_lts g op new_outs)

/-- The visit of `infer_shape` over the graph's ops, stopping at the first
non-success step.  Modelled from the spec (section 4.1, "topological
visit"): `topo_order_visit` (utils/utils.hpp) is not under src/; the visit
order is modelled as the op list in insertion order, producers assumed to
precede consumers. -/
def visit_fold (reg : Nat → Option OpSchema) : List Op → Graph → Status × Graph
  | [], g => (Status.success, g)
  | op :: rest, g =>
    let r := infer_step reg g op
    if r.1 = Status.success then visit_fold reg rest r.2 else r

/-- `dnnl_graph_graph::infer_shape` (graph.hpp lines 248-295): first check
that every graph input value has a resolved shape, then run each op's
shape-inference step in topological order. -/
def infer_shape (reg : Nat → Option OpSchema) (g : Graph) : Status × Graph :=
  if (get_input_values g).any (fun vid => is_shape_unknown (find_value g vid).ltensor) then
    (Status.invalid_shape, g)
  else
    visit_fold reg g.ops g

/-! ### Pass pipeline: `pass_pipeline_t::run` (backend/dnnl/passes/utils.hpp
lines 184-199).  A pass mutates the subgraph and returns a status, modelled
as `S → Status × S`; the validator (`subgraph_validator_t::run`, whose body
is not under src/) is modelled as a status-returning check `S → Status`.
The visualizer only dumps a dot file and is omitted.  The run is
instrumented with a ghost trace of the invocations it performs: an event
`(i, phase, st)` records that pass `i` (phase `false`) or the validation
after pass `i` (phase `true`) was invoked and returned `st`. -/

/-- `pass_pipeline_t::run`, starting from pass index `i`: run each pass in
order; return immediately on a non-success pass status; otherwise validate
and return immediately on a non-success validation status. -/
def pipeline_run_aux {S : Type} (validator : S → Status) :
    List (S → Status × S) → Nat → S → Status × S × List (Nat × Bool × Status)
  | [], _, sg => (Status.success, sg, [])
  | p :: rest, i, sg =>
    let r := p sg
    if r.1 = Status.success then
      let v := validator r.2
      if v = Status.success then
        let rec_ := pipeline_run_aux validator rest (i + 1) r.2
        (rec_.1, rec_.2.1, (i, false, r.1) :: (i, true, v) :: rec_.2.2)
      else (v, r.2, [(i, false, r.1), (i, true, v)])
    else (r.1, r.2, [(i, false, r.1)])

/-- `pass_pipeline_t::run` over the full added-pass list. -/
def pipeline_run {S : Type} (passes : List (S → Status × S)) (validator : S → Status)
    (sg : S) : Status × S × List (Nat × Bool × Status) :=
  pipeline_run_aux validator passes 0 sg

/-- The complete invocation schedule of a pipeline of `n` passes starting at
index `i`: pass 0, validation 0, pass 1, validation 1, ... -/
def full_schedule : Nat → Nat → List (Nat × Bool)
  | _, 0 => []
  | i, n + 1 => (i, false) :: (i, true) :: full_schedule (i + 1) n

/-- `l₁` is an initial segment of `l₂`. -/
def IsInitSeg {α : Type} (l₁ l₂ : List α) : Prop :=
  ∃ t, l₁ ++ t = l₂

/-! ### Kernel execution: `matmul_t::execute_impl`
(backend/dnnl/kernels/matmul.hpp lines 185-268).

The compiled subgraph holds one executable per scheduled op (`execs_`) and
the constant-marked bit vector (`is_constant_`).  In the source,
`op_executable_t::execute(stream, args)` (backend/dnnl/passes/op_executable.hpp,
not under src/) returns nothing; the spec however speaks of "the first
non-success status from any op execution".  `exec_statuses` below is
modelled from the spec: it records, per scheduled op, the outcome that op's
execution would report.  The embedding of `execute_impl` follows the source,
which has no way to consume these outcomes: it calls each executable in
schedule order and returns `success` unconditionally.

The constant cache (`constant_cache_t`, backend/dnnl/constant_cache.hpp, not
under src/) is modelled from the spec (section 5): `get_or_add` is atomic
under the cache mutex, the first requester installs the pending future and
folds, concurrent requesters block on the future and then read the resolved
buffer, so each `execute_impl` call interacts with the cache as one atomic
step; the cache state is the resolved persistent buffer, if any.  The folded
buffer contents are a deterministic function of the compiled kernel,
represented by the `fold_output` field. -/

/-- A compiled kernel in the state reached after `compile_impl`. -/
structure CompiledKernel where
  exec_statuses : List Status
  is_constant : List Bool
  enable_constant_cache : Bool
  fold_output : List Int
deriving DecidableEq, Repr

/-- Whether scheduled op `i` is constant-marked (`is_constant_[i]`). -/
def const_at (k : CompiledKernel) (i : Nat) : Bool :=
  k.is_constant.getD i false

/-- The scheduled constant-marked op indices, in schedule order (the loop at
matmul.hpp lines 247-251). -/
def const_indices (k : CompiledKernel) : List Nat :=
  (List.range k.exec_statuses.length).filter (fun i => const_at k i)

/-- The scheduled non-constant op indices, in schedule order (the loop at
matmul.hpp lines 257-260). -/
def non_const_indices (k : CompiledKernel) : List Nat :=
  (List.range k.exec_statuses.length).filter (fun i => ! const_at k i)

/-- The observable outcome of one `execute_impl` call: the returned status,
the scheduled-op indices whose executables were run, in order, and the
persistent constant buffer bound during the call (none when constant caching
is disabled). -/
structure ExecOutcome where
  status : Status
  ran : List Nat
  bound_constants : Option (List Int)
deriving DecidableEq, Repr

/-- `matmul_t::execute_impl` (matmul.hpp lines 185-268) as a transition on
the shared constant-cache state: bind thread-local resources and external
tensors (no observable effect here), then, with constant caching enabled,
either bind the cached persistent buffer (cache hit) or fold — run exactly
the constant-marked ops — and publish the buffer (cache miss); finally run
every non-constant op in schedule order and return success. -/
def execute_impl (k : CompiledKernel) (cache : Option (List Int)) :
    ExecOutcome × Option (List Int) :=
  if k.enable_constant_cache then
    match cache with
    | some b =>
      ({ status := Status.success, ran := non_const_indices k, bound_constants := some b },
        some b)
    | none =>
      ({ status := Status.success, ran := const_indices k ++ non_const_indices k,
         bound_constants := some k.fold_output },
        some k.fold_output)
  else
    ({ status := Status.success, ran := non_const_indices k, bound_constants := none },
      cache)

/-- `n` successive `execute_impl` calls on one compiled partition sharing the
constant cache (the serialization of concurrent callers given by the cache's
mutex/future rendezvous, spec section 5). -/
def execute_many (k : CompiledKernel) (cache : Option (List Int)) :
    Nat → List ExecOutcome × Option (List Int)
  | 0 => ([], cache)
  | n + 1 =>
    let r := execute_impl k cache
    let rest := execute_many k r.2 n
    (r.1 :: rest.1, rest.2)

/-! ### Layout-id manager: `layout_id_manager_t`
(backend/dnnl/dnnl_backend.hpp lines 47-110).  The stored descriptor table
`mem_descs_.data_` is a list; `eq` is the virtual `is_mem_desc_equal`. -/

/-- The index of the first element satisfying `p` (models the
`std::find_if`/`std::distance` pair in `set_mem_desc`). -/
def find_first_idx {α : Type} (p : α → Bool) : List α → Option Nat
  | [] => none
  | x :: xs => if p x then some 0 else (find_first_idx p xs).map (· + 1)

/-- `layout_id_manager_t::set_mem_desc`: return the index of the first
stored descriptor equal to `md`, appending `md` when none is. -/
def set_mem_desc {α : Type} (eq : α → α → Bool) (data : List α) (md : α) : Nat × List α :=
  match find_first_idx (fun m => eq m md) data with
  | some i => (i, data)
  | none => (data.length, data ++ [md])

/-- `layout_id_manager_t::get_mem_desc`: an index at or beyond the table size
yields none. -/
def get_mem_desc {α : Type} (data : List α) (layout_id : Nat) : Option α :=
  data.get? layout_id

/-! ### Buffer scheduler (backend/graph_compiler/core/.../transform/
buffer_schedule.hpp).  Modelled from the spec: only the pass's declaration
and its documentation are under src/ (the implementation, buffer_schedule.cpp,
is not).  Per that documentation, every tensor carries a first-access tick
(FAT) and a last-read tick (LRT); in creation order, each tensor either
reuses a previously scheduled tensor whose (updated) last-read tick is
strictly before its own first access — `cur.FAT > candidate.LRT` — or keeps
its own storage; when the newcomer is larger, the reused storage is
extended.  Storage is modelled as slots: each slot holds the buffers merged
into one storage region, the running last-read tick of its tenants, and its
extent; distinct slots occupy disjoint offset ranges laid out end to end. -/

/-- A temporary buffer with its byte size and liveness ticks. -/
structure SchedBuffer where
  bid : Nat
  size : Nat
  fat : Nat
  lrt : Nat
deriving DecidableEq, Repr

/-- One storage region of the schedule: the buffers sharing it, the latest
last-read tick among them, and its extent (the largest tenant size). -/
structure SchedSlot where
  members : List SchedBuffer
  slot_lrt : Nat
  slot_size : Nat
deriving DecidableEq, Repr

/-- Place one buffer: reuse the first slot whose tenants' last read is
strictly before the buffer's first access, extending the slot; otherwise
open a fresh slot at the end of the arena. -/
def place_buffer (b : SchedBuffer) : List SchedSlot → List SchedSlot
  | [] => [⟨[b], b.lrt, b.size⟩]
  | s :: rest =>
    if s.slot_lrt < b.fat then
      ⟨s.members ++ [b], max s.slot_lrt b.lrt, max s.slot_size b.size⟩ :: rest
    else s :: place_buffer b rest

/-- Schedule all buffers in creation order. -/
def buffer_schedule (bs : List SchedBuffer) : List SchedSlot :=
  bs.foldl (fun ss b => place_buffer b ss) []

/-- Assign offsets slot by slot: slots are packed end to end from `base`,
and every buffer is mapped to the offset of its slot. -/
def slot_entries : List SchedSlot → Nat → List (SchedBuffer × Nat)
  | [], _ => []
  | s :: rest, base =>
    s.members.map (fun b => (b, base)) ++ slot_entries rest (base + s.slot_size)

/-- The offset assignment produced by the scheduler. -/
def buffer_offsets (bs : List SchedBuffer) : List (SchedBuffer × Nat) :=
  slot_entries (buffer_schedule bs) 0

/-- Two liveness tick intervals overlap. -/
def ticks_overlap (b₁ b₂ : SchedBuffer) : Prop :=
  b₁.fat ≤ b₂.lrt ∧ b₂.fat ≤ b₁.lrt

instance (b₁ b₂ : SchedBuffer) : Decidable (ticks_overlap b₁ b₂) := by
  unfold ticks_overlap; infer_instance

/-- The offset ranges `[o₁, o₁+s₁)` and `[o₂, o₂+s₂)` do not intersect. -/
def ranges_disjoint (o₁ s₁ o₂ s₂ : Nat) : Prop :=
  o₁ + s₁ ≤ o₂ ∨ o₂ + s₂ ≤ o₁

/-- The well-formedness of one storage slot: every tenant's last read and
size are bounded by the slot's running last-read tick and extent, and
tenants have pairwise non-overlapping liveness. -/
def SlotInv (s : SchedSlot) : Prop :=
  (∀ b ∈ s.members, b.lrt ≤ s.slot_lrt ∧ b.size ≤ s.slot_size) ∧
  s.members.Pairwise (fun b₁ b₂ => ¬ ticks_overlap b₁ b₂)

/-! ### Concrete instances used by witnesses. -/

/-- A dense strided logical tensor (dims 2x3, strides [3,1]). -/
def demo_lt : LogicalTensor := ⟨LayoutType.strided, [2, 3], [3, 1]⟩

/-- A logical tensor that fails `check_logical_tensor_validity` (undefined
layout, no dims). -/
def bad_lt : LogicalTensor := ⟨LayoutType.undef, [], []⟩

/-- A three-op graph: op 1 feeds op 2 through value 11; op 3 is isolated and
reads value 13, whose descriptor is invalid. -/
def demo_graph : Graph :=
  ⟨[⟨1, 0, [], [10], [11]⟩, ⟨2, 0, [], [11], [12]⟩, ⟨3, 0, [], [13], [14]⟩],
   [⟨10, none, [1], demo_lt⟩, ⟨11, some 1, [2], demo_lt⟩, ⟨12, some 2, [], demo_lt⟩,
    ⟨13, none, [3], bad_lt⟩, ⟨14, some 3, [], demo_lt⟩],
   []⟩

/-- A one-op graph whose op kind has no registered schema in the registry
`fun _ => none`; its only value is an output with a resolved shape. -/
def no_schema_graph : Graph :=
  ⟨[⟨1, 0, [], [], [20]⟩], [⟨20, some 1, [], demo_lt⟩], []⟩

/-- A one-op graph whose input value 30 has an unresolved shape (dimension
-1). -/
def unknown_input_graph : Graph :=
  ⟨[⟨1, 0, [], [30], [31]⟩],
   [⟨30, none, [1], ⟨LayoutType.strided, [-1], [1]⟩⟩, ⟨31, some 1, [], demo_lt⟩],
   []⟩

/-- A compiled kernel with two scheduled non-constant ops, the first of
which reports a non-success outcome; constant caching disabled. -/
def failing_op_kernel : CompiledKernel :=
  ⟨[Status.invalid_op, Status.success], [false, false], false, []⟩

/-- A compiled kernel with three scheduled ops, ops 0 and 2 constant-marked,
constant caching enabled; folding writes `[42]`. -/
def const_cache_kernel : CompiledKernel :=
  ⟨[Status.success, Status.success, Status.success], [true, false, true], true, [42]⟩

/-! ## Theorems -/

/-- C7.  add_op idempotence by id: for every graph `g` and every op `n` whose
id equals the id of an op already in `g`, a call `add_op n` leaves `g`'s op
list unchanged — no duplicate is inserted and no existing op is modified —
and returns success. -/
theorem add_op_idempotent_by_id (reg : Nat → Option OpSchema) (g : Graph) (n : Op)
    (h : ∃ op ∈ g.ops, op.oid = n.oid) :
    add_op reg g n = (Status.success, g) := by
  obtain ⟨op, hmem, hid⟩ := h
  have hany : g.ops.any (fun op => op.oid == n.oid) = true := by
    rw [List.any_eq_true]
    exact ⟨op, hmem, by simpa using hid⟩
  unfold add_op
  rw [if_pos hany]

/-- Witness for C7: a concrete second insertion of an op with an existing id
is a no-op returning success. -/
theorem add_op_idempotent_by_id_witness :
    (∃ op ∈ (Graph.mk [⟨1, 4, [], [], []⟩] [] []).ops,
        op.oid = (Op.mk 1 9 [] [10] [11]).oid) ∧
    add_op (fun _ => none) (Graph.mk [⟨1, 4, [], [], []⟩] [] []) (Op.mk 1 9 [] [10] [11]) =
      (Status.success, Graph.mk [⟨1, 4, [], [], []⟩] [] []) :=
  ⟨⟨⟨1, 4, [], [], []⟩, by decide⟩,
    add_op_idempotent_by_id (fun _ => none) _ _ ⟨⟨1, 4, [], [], []⟩, by decide⟩⟩

theorem find_first_idx_congr {α : Type} {p q : α → Bool} (h : ∀ a, p a = q a) :
    ∀ l : List α, find_first_idx p l = find_first_idx q l
  | [] => rfl
  | x :: xs => by
    simp only [find_first_idx, h x, find_first_idx_congr h xs]

theorem find_first_idx_some {α : Type} {p : α → Bool} :
    ∀ {l : List α} {i : Nat}, find_first_idx p l = some i →
      ∃ d, l.get? i = some d ∧ p d = true := by
  intro l
  induction l with
  | nil => intro i h; simp [find_first_idx] at h
  | cons x xs ih =>
    intro i h
    simp only [find_first_idx] at h
    by_cases hx : p x
    · rw [if_pos hx] at h
      obtain rfl : (0 : Nat) = i := Option.some.inj h
      exact ⟨x, rfl, hx⟩
    · rw [if_neg hx] at h
      rcases Option.map_eq_some'.1 h with ⟨i', hi', rfl⟩
      obtain ⟨d, hd, hp⟩ := ih hi'
      exact ⟨d, by simpa [List.get?] using hd, hp⟩

theorem find_first_idx_none_append {α : Type} {p : α → Bool} {x : α} (hx : p x = true) :
    ∀ {l : List α}, find_first_idx p l = none →
      find_first_idx p (l ++ [x]) = some l.length := by
  intro l
  induction l with
  | nil => intro _; simp [find_first_idx, hx]
  | cons y ys ih =>
    intro h
    rw [List.cons_append]
    simp only [find_first_idx] at h ⊢
    by_cases hy : p y
    · rw [if_pos hy] at h; exact absurd h (by simp)
    · rw [if_neg hy] at h ⊢
      rw [ih (by simpa using h)]
      simp

theorem get_concat_length {α : Type} (x : α) :
    ∀ l : List α, (l ++ [x]).get? l.length = some x
  | [] => rfl
  | y :: ys => by simp [List.get?, get_concat_length x ys]

theorem get_past_length {α : Type} :
    ∀ (l : List α) (j : Nat), l.length ≤ j → l.get? j = none
  | [], _, _ => rfl
  | y :: ys, j + 1, h => by
    simpa [List.get?] using get_past_length ys j (Nat.le_of_succ_le_succ h)

/-- C10.  Layout-id manager round-trip and deduplication: `set_mem_desc md`
returns an id under which `get_mem_desc` finds a descriptor equal to `md`;
calling `set_mem_desc` again with an equal descriptor returns the same id
without growing the table; and `get_mem_desc` at or beyond the table size
returns none.  The hypotheses state that the backend's `is_mem_desc_equal`
relates `md` to itself and that `md'` is equal to `md` (indistinguishable
from it on stored descriptors, and equal to it from `md`). -/
theorem layout_id_manager_roundtrip {α : Type} (eq : α → α → Bool) (data : List α)
    (md md' : α) (hrefl : eq md md = true)
    (hsame : ∀ a, eq a md' = eq a md) :
    (∃ d, get_mem_desc (set_mem_desc eq data md).2 (set_mem_desc eq data md).1 = some d ∧
        eq d md = true) ∧
    set_mem_desc eq (set_mem_desc eq data md).2 md' = set_mem_desc eq data md ∧
    ∀ j, (set_mem_desc eq data md).2.length ≤ j →
      get_mem_desc (set_mem_desc eq data md).2 j = none := by
  have hcongr := find_first_idx_congr (p := fun m => eq m md') (q := fun m => eq m md) hsame
  rcases hfind : find_first_idx (fun m => eq m md) data with _ | i
  · have hset : set_mem_desc eq data md = (data.length, data ++ [md]) := by
      unfold set_mem_desc; rw [hfind]
    refine ⟨?_, ?_, ?_⟩
    · refine ⟨md, ?_, hrefl⟩
      rw [hset]
      exact get_concat_length md data
    · rw [hset]
      unfold set_mem_desc
      rw [hcongr (data ++ [md]),
        find_first_idx_none_append (p := fun m => eq m md) hrefl hfind]
    · intro j hj
      rw [hset] at hj ⊢
      exact get_past_length _ j hj
  · have hset : set_mem_desc eq data md = (i, data) := by
      unfold set_mem_desc; rw [hfind]
    obtain ⟨d, hd, hp⟩ := find_first_idx_some hfind
    refine ⟨⟨d, by rw [hset]; exact hd, hp⟩, ?_, ?_⟩
    · rw [hset]
      unfold set_mem_desc
      rw [hcongr data, hfind]
    · intro j hj
      rw [hset] at hj ⊢
      exact get_past_length _ j hj

/-- Witness for C10: the concrete manager over naturals with literal
equality, starting from the empty table and descriptor 5. -/
theorem layout_id_manager_roundtrip_witness :
    ((fun a b : Nat => a == b) 5 5 = true) ∧
    ((∃ d, get_mem_desc (set_mem_desc (fun a b : Nat => a == b) [] 5).2
        (set_mem_desc (fun a b : Nat => a == b) [] 5).1 = some d ∧
        (fun a b : Nat => a == b) d 5 = true) ∧
    set_mem_desc (fun a b : Nat => a == b)
        (set_mem_desc (fun a b : Nat => a == b) [] 5).2 5 =
      set_mem_desc (fun a b : Nat => a == b) [] 5 ∧
    ∀ j, (set_mem_desc (fun a b : Nat => a == b) [] 5).2.length ≤ j →
      get_mem_desc (set_mem_desc (fun a b : Nat => a == b) [] 5).2 j = none) :=
  ⟨by decide,
    layout_id_manager_roundtrip (fun a b : Nat => a == b) [] 5 5 (by decide)
      (fun _ => rfl)⟩

theorem mem_set_partitions_list {g : Graph} {fo : List (List Nat)} {p : CompilerPartition} :
    p ∈ set_partitions_list g fo ↔
      ∃ ms ∈ fo, accept_match g ms = true ∧ p = make_partition g ms := by
  simp only [set_partitions_list, List.mem_filterMap]
  constructor
  · rintro ⟨ms, hms, hsome⟩
    by_cases h : accept_match g ms
    · rw [if_pos h] at hsome
      exact ⟨ms, hms, h, (Option.some.inj hsome).symm⟩
    · rw [if_neg h] at hsome
      cases hsome
  · rintro ⟨ms, hms, hacc, rfl⟩
    exact ⟨ms, hms, by rw [if_pos hacc]⟩

theorem set_partitions_list_cons (g : Graph) (ms : List Nat) (fo : List (List Nat)) :
    set_partitions_list g (ms :: fo) =
      if accept_match g ms then make_partition g ms :: set_partitions_list g fo
      else set_partitions_list g fo := by
  by_cases h : accept_match g ms <;>
    simp [set_partitions_list, List.filterMap_cons, h]

theorem countP_pairwise_op_disjoint {l : List CompilerPartition}
    (h : l.Pairwise (fun p q => ∀ o ∈ p.pops, o ∉ q.pops)) (o : Nat) :
    l.countP (fun p => decide (o ∈ p.pops)) ≤ 1 := by
  induction l with
  | nil => simp
  | cons p ps ih =>
    rw [List.pairwise_cons] at h
    rw [List.countP_cons]
    by_cases hc : o ∈ p.pops
    · have hzero : ps.countP (fun q => decide (o ∈ q.pops)) = 0 := by
        rw [List.countP_eq_zero]
        intro q hq
        simpa using h.1 q hq o hc
      simp [hzero, hc]
    · simpa [hc] using ih h.2

/-- C1.  Partition disjointness: for every graph, after partitioning
(`set_partitions` over all accepted matches, which the matcher delivers
pairwise disjoint), the op-sets of any two partitions created in that graph
are disjoint, and every op placed in a partition belongs to exactly one
partition. -/
theorem partition_disjointness (g : Graph) (fo : List (List Nat))
    (hdisj : fo.Pairwise (fun a b => ∀ o ∈ a, o ∉ b)) :
    (set_partitions_list g fo).Pairwise (fun p q => ∀ o ∈ p.pops, o ∉ q.pops) ∧
    ∀ o : Nat, (set_partitions_list g fo).countP (fun p => decide (o ∈ p.pops)) ≤ 1 := by
  have hpw : (set_partitions_list g fo).Pairwise (fun p q => ∀ o ∈ p.pops, o ∉ q.pops) := by
    induction fo with
    | nil => simp [set_partitions_list]
    | cons ms fo ih =>
      rw [List.pairwise_cons] at hdisj
      rw [set_partitions_list_cons]
      by_cases h : accept_match g ms
      · rw [if_pos h]
        refine List.Pairwise.cons ?_ (ih hdisj.2)
        intro q hq o ho
        obtain ⟨ms', hms', -, rfl⟩ := mem_set_partitions_list.1 hq
        exact hdisj.1 ms' hms' o ho
      · rw [if_neg h]
        exact ih hdisj.2
  exact ⟨hpw, countP_pairwise_op_disjoint hpw⟩

/-- Witness for C1: the two disjoint accepted matches `[1]` and `[2]` of the
demo graph produce op-disjoint partitions, each op counted at most once. -/
theorem partition_disjointness_witness :
    ([[1], [2]] : List (List Nat)).Pairwise (fun a b => ∀ o ∈ a, o ∉ b) ∧
    ((set_partitions_list demo_graph [[1], [2]]).Pairwise
        (fun p q => ∀ o ∈ p.pops, o ∉ q.pops) ∧
      ∀ o : Nat,
        (set_partitions_list demo_graph [[1], [2]]).countP
          (fun p => decide (o ∈ p.pops)) ≤ 1) :=
  ⟨by decide, partition_disjointness demo_graph [[1], [2]] (by decide)⟩

/-- C2.  Partition boundary correctness: for every partition built by
`set_partitions` from a matched op set, every recorded input value either
has no producer or has a producer outside the partition's op set, and every
recorded output value either has no consumers at all or has at least one
consumer outside the partition's op set. -/
theorem partition_boundary_correctness (g : Graph) (fo : List (List Nat))
    (p : CompilerPartition) (hp : p ∈ set_partitions_list g fo) :
    (∀ vid ∈ p.pinputs,
        (find_value g vid).producer = none ∨
        ∀ pid, (find_value g vid).producer = some pid → pid ∉ p.pops) ∧
    (∀ vid ∈ p.poutputs,
        (find_value g vid).consumers = [] ∨
        ∃ c ∈ (find_value g vid).consumers, c ∉ p.pops) := by
  obtain ⟨ms, -, -, rfl⟩ := mem_set_partitions_list.1 hp
  constructor
  · intro vid hvid
    simp only [make_partition, partition_inputs, List.mem_flatMap] at hvid ⊢
    obtain ⟨oid, -, hvf⟩ := hvid
    have hcond := (List.mem_filter.1 hvf).2
    rcases hprod : (find_value g vid).producer with _ | pid
    · exact Or.inl rfl
    · refine Or.inr ?_
      intro pid' hpid'
      obtain rfl : pid = pid' := Option.some.inj hpid'
      simp only [hprod] at hcond
      simpa using hcond
  · intro vid hvid
    simp only [make_partition, partition_outputs, List.mem_flatMap] at hvid ⊢
    obtain ⟨oid, -, hvf⟩ := hvid
    have hcond := (List.mem_filter.1 hvf).2
    unfold is_output_value at hcond
    rcases Bool.or_eq_true_iff.1 hcond with hemp | hany
    · exact Or.inl (by simpa using hemp)
    · refine Or.inr ?_
      obtain ⟨c, hc, hout⟩ := List.any_eq_true.1 hany
      exact ⟨c, hc, by simpa using hout⟩

/-- Witness for C2: the partition built from the match `[1, 2]` of the demo
graph records input value 10 (no producer) and output value 12 (no
consumers), both on the correct side of the boundary. -/
theorem partition_boundary_correctness_witness :
    (⟨[1, 2], [10], [12]⟩ : CompilerPartition) ∈
        set_partitions_list demo_graph [[1, 2]] ∧
    ((∀ vid ∈ (⟨[1, 2], [10], [12]⟩ : CompilerPartition).pinputs,
        (find_value demo_graph vid).producer = none ∨
        ∀ pid, (find_value demo_graph vid).producer = some pid →
          pid ∉ (⟨[1, 2], [10], [12]⟩ : CompilerPartition).pops) ∧
     (∀ vid ∈ (⟨[1, 2], [10], [12]⟩ : CompilerPartition).poutputs,
        (find_value demo_graph vid).consumers = [] ∨
        ∃ c ∈ (find_value demo_graph vid).consumers,
          c ∉ (⟨[1, 2], [10], [12]⟩ : CompilerPartition).pops)) :=
  ⟨by decide, partition_boundary_correctness demo_graph [[1, 2]] _ (by decide)⟩

/-- C9.  Invalid-boundary partitions are dropped silently: if any boundary
logical tensor of an accepted match fails validation, no partition is
created for that match, no matched op is assigned to a partition, and the
ops (and values) remain in the main graph; `set_partitions` produces no
error status (it returns none by type). -/
theorem invalid_boundary_partition_dropped (g : Graph) (fo : List (List Nat))
    (ms : List Nat) (hmem : ms ∈ fo) (hbad : accept_match g ms = false)
    (hdisj : fo.Pairwise (fun a b => ∀ o ∈ a, o ∉ b)) :
    (∀ o ∈ ms, ∀ p ∈ set_partitions_list g fo, o ∉ p.pops) ∧
    (set_partitions g fo).ops = g.ops ∧
    (set_partitions g fo).vals = g.vals := by
  refine ⟨?_, rfl, rfl⟩
  intro o ho p hp
  obtain ⟨ms', hms', hacc, rfl⟩ := mem_set_partitions_list.1 hp
  by_cases heq : ms = ms'
  · subst heq
    rw [hacc] at hbad
    cases hbad
  · have hsymm : Symmetric (fun a b : List Nat => ∀ o ∈ a, o ∉ b) := by
      intro a b hab o hob hoa
      exact hab o hoa hob
    exact hdisj.forall hsymm hmem hms' heq o ho

/-- Witness for C9: the match `[3]` of the demo graph has an invalid input
descriptor (value 13), so among the matches `[[1, 2], [3]]` it creates no
partition, op 3 is assigned nowhere, and the graph is untouched. -/
theorem invalid_boundary_partition_dropped_witness :
    ([3] ∈ ([[1, 2], [3]] : List (List Nat)) ∧
      accept_match demo_graph [3] = false ∧
      ([[1, 2], [3]] : List (List Nat)).Pairwise (fun a b => ∀ o ∈ a, o ∉ b)) ∧
    ((∀ o ∈ ([3] : List Nat), ∀ p ∈ set_partitions_list demo_graph [[1, 2], [3]],
        o ∉ p.pops) ∧
      (set_partitions demo_graph [[1, 2], [3]]).ops = demo_graph.ops ∧
      (set_partitions demo_graph [[1, 2], [3]]).vals = demo_graph.vals) :=
  ⟨⟨by decide, by decide, by decide⟩,
    invalid_boundary_partition_dropped demo_graph [[1, 2], [3]] [3]
      (by decide) (by decide) (by decide)⟩

theorem visit_fold_append (reg : Nat → Option OpSchema) :
    ∀ (pre rest : List Op) (g g' : Graph),
      visit_fold reg pre g = (Status.success, g') →
      visit_fold reg (pre ++ rest) g = visit_fold reg rest g' := by
  intro pre
  induction pre with
  | nil =>
    intro rest g g' h
    obtain rfl : g = g' := congrArg Prod.snd h
    rfl
  | cons op pre ih =>
    intro rest g g' h
    rw [List.cons_append]
    simp only [visit_fold] at h ⊢
    by_cases hst : (infer_step reg g op).1 = Status.success
    · rw [if_pos hst] at h ⊢
      exact ih rest _ g' h
    · rw [if_neg hst] at h
      exact absurd (congrArg Prod.fst h) hst

/-- Counterexample to C8: in a graph whose single op has no registered
schema and whose inputs all have resolved shapes, `infer_shape` returns
`invalid_op`, not the claimed `invalid_shape`. -/
theorem infer_shape_no_schema_counterexample :
    (no_schema_graph.ops.any
        (fun op => ((fun _ : Nat => (none : Option OpSchema)) op.kind).isNone) = true) ∧
    ((get_input_values no_schema_graph).any
        (fun vid => is_shape_unknown (find_value no_schema_graph vid).ltensor) = false) ∧
    (infer_shape (fun _ => none) no_schema_graph).1 = Status.invalid_op ∧
    Status.invalid_op ≠ Status.invalid_shape := by
  refine ⟨rfl, rfl, rfl, by decide⟩

/-- C8 (amended).  infer_shape failure modes: `infer_shape` returns
`invalid_shape` whenever some graph input value has an unresolved shape
(leaving the graph untouched); a visited op with no registered schema makes
the visit stop with `invalid_op`; any non-success shape-inference step
leaves the graph of that step unchanged, so output descriptors are mutated
only on the success path of each op's step. -/
theorem infer_shape_failure_modes :
    (∀ (reg : Nat → Option OpSchema) (g : Graph),
      (get_input_values g).any
          (fun vid => is_shape_unknown (find_value g vid).ltensor) = true →
      infer_shape reg g = (Status.invalid_shape, g)) ∧
    (∀ (reg : Nat → Option OpSchema) (g : Graph) (op : Op),
      reg op.kind = none → infer_step reg g op = (Status.invalid_op, g)) ∧
    (∀ (reg : Nat → Option OpSchema) (g : Graph) (op : Op),
      (infer_step reg g op).1 ≠ Status.success → (infer_step reg g op).2 = g) ∧
    (∀ (reg : Nat → Option OpSchema) (g g' : Graph) (pre : List Op) (op : Op)
        (post : List Op),
      g.ops = pre ++ op :: post →
      (get_input_values g).any
          (fun vid => is_shape_unknown (find_value g vid).ltensor) = false →
      visit_fold reg pre g = (Status.success, g') →
      reg op.kind = none →
      (infer_shape reg g).1 = Status.invalid_op) := by
  have hstep : ∀ (reg : Nat → Option OpSchema) (g : Graph) (op : Op),
      reg op.kind = none → infer_step reg g op = (Status.invalid_op, g) := by
    intro reg g op h
    unfold infer_step
    rw [h]
  refine ⟨?_, hstep, ?_, ?_⟩
  · intro reg g h
    unfold infer_shape
    rw [if_pos h]
  · intro reg g op h
    unfold infer_step at h ⊢
    rcases hreg : reg op.kind with _ | opm
    · simp only [hreg]
    · simp only [hreg] at h ⊢
      rcases hsi : opm.shape_infer op
          (op.inputs.map (fun vid => (find_value g vid).ltensor))
          (op.outputs.map (fun vid => (find_value g vid).ltensor)) with _ | new_outs
      · simp only [hsi]
      · simp only [hsi] at h
        exact absurd rfl h
  · intro reg g g' pre op post hops hresolved hpre hschema
    unfold infer_shape
    rw [if_neg (by simp [hresolved]), hops, visit_fold_append reg pre (op :: post) g g' hpre]
    simp only [visit_fold, hstep reg g' op hschema]
    rfl

/-- Witness for C8 (amended): a graph whose input value 30 has an unknown
dimension makes `infer_shape` return `invalid_shape` with the graph
untouched. -/
theorem infer_shape_failure_modes_witness :
    ((get_input_values unknown_input_graph).any
        (fun vid => is_shape_unknown (find_value unknown_input_graph vid).ltensor) = true) ∧
    infer_shape (fun _ => none) unknown_input_graph =
      (Status.invalid_shape, unknown_input_graph) :=
  ⟨rfl, infer_shape_failure_modes.1 (fun _ => none) unknown_input_graph rfl⟩

/-- Counterexample to C3: in `failing_op_kernel` the first scheduled op's
execution reports `invalid_op`, yet `execute_impl` returns success and
still runs the second op — no status is propagated and nothing is
aborted. -/
theorem execute_impl_ignores_op_failure :
    failing_op_kernel.exec_statuses.getD 0 Status.success = Status.invalid_op ∧
    Status.invalid_op ≠ Status.success ∧
    (execute_impl failing_op_kernel none).1.status = Status.success ∧
    (execute_impl failing_op_kernel none).1.ran = [0, 1] := by
  refine ⟨rfl, by decide, rfl, rfl⟩

/-- C3 (amended).  `execute_impl` runs every scheduled non-constant op in
schedule order regardless of any individual op's execution outcome and
always returns success: op execution returns no status in this code, so
per-op failures are never propagated and never abort the remaining ops. -/
theorem execute_impl_cases (k : CompiledKernel) (cache : Option (List Int)) :
    (execute_impl k cache).1.status = Status.success ∧
    ((execute_impl k cache).1.ran = const_indices k ++ non_const_indices k ∨
      (execute_impl k cache).1.ran = non_const_indices k) := by
  unfold execute_impl
  by_cases hen : k.enable_constant_cache
  · rcases cache with _ | b <;> simp [hen]
  · simp [hen]

theorem mem_non_const_indices (k : CompiledKernel) (i : Nat) :
    i ∈ non_const_indices k ↔ i < k.exec_statuses.length ∧ const_at k i = false := by
  simp [non_const_indices, List.mem_filter, List.mem_range]

theorem mem_const_indices (k : CompiledKernel) (i : Nat) :
    i ∈ const_indices k ↔ i < k.exec_statuses.length ∧ const_at k i = true := by
  simp [const_indices, List.mem_filter, List.mem_range]

theorem execute_impl_always_success_runs_all (k : CompiledKernel)
    (cache : Option (List Int)) :
    (execute_impl k cache).1.status = Status.success ∧
    (∀ i, i < k.exec_statuses.length → const_at k i = false →
      i ∈ (execute_impl k cache).1.ran) ∧
    (∀ i ∈ (execute_impl k cache).1.ran, i < k.exec_statuses.length) := by
  obtain ⟨hst, hran⟩ := execute_impl_cases k cache
  refine ⟨hst, ?_, ?_⟩
  · intro i hi hc
    have hnc : i ∈ non_const_indices k := (mem_non_const_indices k i).2 ⟨hi, hc⟩
    rcases hran with h | h <;> rw [h]
    · exact List.mem_append_right _ hnc
    · exact hnc
  · intro i hi
    rcases hran with h | h <;> rw [h] at hi
    · rcases List.mem_append.1 hi with h' | h'
      · exact ((mem_const_indices k i).1 h').1
      · exact ((mem_non_const_indices k i).1 h').1
    · exact ((mem_non_const_indices k i).1 hi).1

/-- Witness for C3 (amended): the concrete kernel with a failing first op
still returns success and runs every non-constant op. -/
theorem execute_impl_always_success_runs_all_witness :
    (execute_impl failing_op_kernel none).1.status = Status.success ∧
    (∀ i, i < failing_op_kernel.exec_statuses.length →
      const_at failing_op_kernel i = false →
      i ∈ (execute_impl failing_op_kernel none).1.ran) ∧
    (∀ i ∈ (execute_impl failing_op_kernel none).1.ran,
      i < failing_op_kernel.exec_statuses.length) :=
  execute_impl_always_success_runs_all failing_op_kernel none

theorem filter_self_of_filter {α : Type} (p : α → Bool) (l : List α) :
    (l.filter p).filter p = l.filter p := by
  induction l with
  | nil => rfl
  | cons x xs ih =>
    by_cases hx : p x <;> simp [List.filter_cons, hx, ih]

theorem filter_neg_of_filter {α : Type} (p : α → Bool) (l : List α) :
    (l.filter (fun a => ! p a)).filter p = [] := by
  induction l with
  | nil => rfl
  | cons x xs ih =>
    by_cases hx : p x <;> simp [List.filter_cons, hx, ih]

theorem filter_const_indices (k : CompiledKernel) :
    (const_indices k).filter (fun i => const_at k i) = const_indices k := by
  unfold const_indices
  exact filter_self_of_filter _ _

theorem filter_non_const_indices (k : CompiledKernel) :
    (non_const_indices k).filter (fun i => const_at k i) = [] := by
  unfold non_const_indices
  exact filter_neg_of_filter _ _

theorem flatMap_replicate_nil {α β : Type} (f : α → List β) (a : α) (h : f a = []) :
    ∀ m, (List.replicate m a).flatMap f = []
  | 0 => rfl
  | m + 1 => by
    simp [List.replicate_succ, h, flatMap_replicate_nil f a h m]

theorem execute_many_after_hit (k : CompiledKernel)
    (hen : k.enable_constant_cache = true) (b : List Int) :
    ∀ m, (execute_many k (some b) m).1 =
        List.replicate m ⟨Status.success, non_const_indices k, some b⟩ ∧
      (execute_many k (some b) m).2 = some b
  | 0 => ⟨rfl, rfl⟩
  | m + 1 => by
    have hstep : execute_impl k (some b) =
        (⟨Status.success, non_const_indices k, some b⟩, some b) := by
      simp [execute_impl, hen]
    have ih := execute_many_after_hit k hen b m
    simp [execute_many, hstep, List.replicate_succ, ih.1, ih.2]

/-- C5.  Constant-fold-once: across `n ≥ 1` `execute` calls on one compiled
partition with constant caching enabled (the calls' cache interactions
serialized by the cache's mutex/future rendezvous), the constant-marked ops
are executed exactly once in total — by the first caller, whose lookup
misses and installs the buffer — every caller binds the same folded
persistent buffer contents, and callers that find a cached value run no
constant-marked op. -/
theorem constant_fold_once (k : CompiledKernel) (n : Nat)
    (hen : k.enable_constant_cache = true) (hn : 0 < n) :
    ((execute_many k none n).1.flatMap
        (fun o => o.ran.filter (fun i => const_at k i)) = const_indices k) ∧
    (∀ o ∈ (execute_many k none n).1, o.bound_constants = some k.fold_output) ∧
    (∀ o ∈ (execute_many k none n).1.tail,
      o.ran.filter (fun i => const_at k i) = []) ∧
    (execute_many k none n).2 = some k.fold_output := by
  obtain ⟨m, rfl⟩ : ∃ m, n = m + 1 := by
    cases n with
    | zero => exact absurd hn (by decide)
    | succ m => exact ⟨m, rfl⟩
  have hmiss : execute_impl k none =
      (⟨Status.success, const_indices k ++ non_const_indices k, some k.fold_output⟩,
        some k.fold_output) := by
    simp [execute_impl, hen]
  have hrest := execute_many_after_hit k hen k.fold_output m
  have hhit : (⟨Status.success, non_const_indices k, some k.fold_output⟩ :
      ExecOutcome).ran.filter (fun i => const_at k i) = [] :=
    filter_non_const_indices k
  have hlist : (execute_many k none (m + 1)).1 =
      ⟨Status.success, const_indices k ++ non_const_indices k, some k.fold_output⟩ ::
        List.replicate m ⟨Status.success, non_const_indices k, some k.fold_output⟩ := by
    simp [execute_many, hmiss, hrest.1]
  have hsnd : (execute_many k none (m + 1)).2 = some k.fold_output := by
    simp [execute_many, hmiss, hrest.2]
  refine ⟨?_, ?_, ?_, hsnd⟩
  · rw [hlist, List.flatMap_cons,
      flatMap_replicate_nil (fun o : ExecOutcome => o.ran.filter (fun i => const_at k i))
        _ hhit m,
      List.append_nil, List.filter_append, filter_const_indices,
      filter_non_const_indices, List.append_nil]
  · rw [hlist]
    intro o ho
    rcases List.mem_cons.1 ho with rfl | ho
    · rfl
    · rw [List.eq_of_mem_replicate ho]
  · rw [hlist]
    intro o ho
    rw [List.tail_cons] at ho
    rw [List.eq_of_mem_replicate ho]
    exact hhit

/-- Witness for C5: three serialized callers on the concrete constant-cache
kernel fold once and all bind the buffer `[42]`. -/
theorem constant_fold_once_witness :
    (const_cache_kernel.enable_constant_cache = true ∧ 0 < 3) ∧
    (((execute_many const_cache_kernel none 3).1.flatMap
        (fun o => o.ran.filter (fun i => const_at const_cache_kernel i)) =
          const_indices const_cache_kernel) ∧
      (∀ o ∈ (execute_many const_cache_kernel none 3).1,
        o.bound_constants = some const_cache_kernel.fold_output) ∧
      (∀ o ∈ (execute_many const_cache_kernel none 3).1.tail,
        o.ran.filter (fun i => const_at const_cache_kernel i) = []) ∧
      (execute_many const_cache_kernel none 3).2 =
        some const_cache_kernel.fold_output) :=
  ⟨⟨rfl, by decide⟩, constant_fold_once const_cache_kernel 3 rfl (by decide)⟩

theorem mem_dropLast_cons {α : Type} {x e : α} {l : List α}
    (h : e ∈ (x :: l).dropLast) : e = x ∨ e ∈ l.dropLast := by
  cases l with
  | nil => cases h
  | cons y ys =>
    rcases List.mem_cons.1 h with rfl | h'
    · exact Or.inl rfl
    · exact Or.inr h'

theorem getLast_cons_some {α : Type} {x e : α} {l : List α}
    (h : l.getLast? = some e) : (x :: l).getLast? = some e := by
  cases l with
  | nil => cases h
  | cons y ys => rw [List.getLast?_cons_cons]; exact h

theorem pipeline_run_aux_spec {S : Type} (validator : S → Status) :
    ∀ (ps : List (S → Status × S)) (i : Nat) (sg : S),
      IsInitSeg (((pipeline_run_aux validator ps i sg).2.2).map (fun e => (e.1, e.2.1)))
          (full_schedule i ps.length) ∧
      (∀ e ∈ ((pipeline_run_aux validator ps i sg).2.2).dropLast,
        e.2.2 = Status.success) ∧
      ((pipeline_run_aux validator ps i sg).1 = Status.success ↔
        (((pipeline_run_aux validator ps i sg).2.2).map (fun e => (e.1, e.2.1)) =
            full_schedule i ps.length ∧
          ∀ e ∈ (pipeline_run_aux validator ps i sg).2.2, e.2.2 = Status.success)) ∧
      ((pipeline_run_aux validator ps i sg).1 ≠ Status.success →
        ∃ j b, ((pipeline_run_aux validator ps i sg).2.2).getLast? =
          some (j, b, (pipeline_run_aux validator ps i sg).1)) := by
  intro ps
  induction ps with
  | nil =>
    intro i sg
    refine ⟨⟨[], rfl⟩, by simp [pipeline_run_aux], ?_, fun h => absurd rfl h⟩
    simp [pipeline_run_aux, full_schedule]
  | cons p rest ih =>
    intro i sg
    by_cases hret : (p sg).1 = Status.success
    · by_cases hv : validator (p sg).2 = Status.success
      · have hunf : pipeline_run_aux validator (p :: rest) i sg =
            ((pipeline_run_aux validator rest (i + 1) (p sg).2).1,
             (pipeline_run_aux validator rest (i + 1) (p sg).2).2.1,
             (i, false, (p sg).1) :: (i, true, validator (p sg).2) ::
               (pipeline_run_aux validator rest (i + 1) (p sg).2).2.2) := by
          simp only [pipeline_run_aux]
          rw [if_pos hret, if_pos hv]
        obtain ⟨⟨t, ht⟩, hB, hC, hD⟩ := ih (i + 1) (p sg).2
        rw [hunf]
        refine ⟨⟨t, ?_⟩, ?_, ?_, ?_⟩
        · simp only [List.map_cons, List.length_cons, full_schedule, List.cons_append]
          rw [ht]
        · intro e he
          rcases mem_dropLast_cons he with rfl | he'
          · exact hret
          · rcases mem_dropLast_cons he' with rfl | he''
            · exact hv
            · exact hB e he''
        · constructor
          · intro h
            obtain ⟨hmap, hall⟩ := hC.1 h
            refine ⟨?_, ?_⟩
            · simp only [List.map_cons, List.length_cons, full_schedule]
              rw [hmap]
            · intro e he
              rcases List.mem_cons.1 he with rfl | he'
              · exact hret
              · rcases List.mem_cons.1 he' with rfl | he''
                · exact hv
                · exact hall e he''
          · intro ⟨hmap, hall⟩
            apply hC.2
            refine ⟨?_, ?_⟩
            · simp only [List.map_cons, List.length_cons, full_schedule] at hmap
              have h4 := congrArg List.tail (congrArg List.tail hmap)
              simpa using h4
            · intro e he
              exact hall e (List.mem_cons_of_mem _ (List.mem_cons_of_mem _ he))
        · intro h
          obtain ⟨j, b, hlast⟩ := hD h
          exact ⟨j, b, getLast_cons_some (getLast_cons_some hlast)⟩
      · have hunf : pipeline_run_aux validator (p :: rest) i sg =
            (validator (p sg).2, (p sg).2,
             [(i, false, (p sg).1), (i, true, validator (p sg).2)]) := by
          simp only [pipeline_run_aux]
          rw [if_pos hret, if_neg hv]
        rw [hunf]
        refine ⟨⟨full_schedule (i + 1) rest.length, ?_⟩, ?_, ?_, ?_⟩
        · simp [full_schedule]
        · intro e he
          simp only [List.dropLast, List.mem_singleton] at he
          rw [he]
          exact hret
        · refine iff_of_false hv (fun ⟨hmap, hall⟩ => ?_)
          exact hv (hall (i, true, validator (p sg).2) (by simp))
        · intro _
          exact ⟨i, true, rfl⟩
    · have hunf : pipeline_run_aux validator (p :: rest) i sg =
          ((p sg).1, (p sg).2, [(i, false, (p sg).1)]) := by
        simp only [pipeline_run_aux]
        rw [if_neg hret]
      rw [hunf]
      refine ⟨⟨(i, true) :: full_schedule (i + 1) rest.length, ?_⟩, ?_, ?_, ?_⟩
      · simp [full_schedule]
      · intro e he
        simp only [List.dropLast] at he
        cases he
      · refine iff_of_false hret (fun ⟨hmap, hall⟩ => ?_)
        exact hret (hall (i, false, (p sg).1) (by simp))
      · intro _
        exact ⟨i, false, rfl⟩

/-- C4.  Pass pipeline order and first-failure abort: `pass_pipeline_t::run`
applies the added passes strictly in the order they were added and runs the
validator after every pass — the invocation trace is an initial segment of
the full pass/validation schedule; all invocations before the last return
success, and a non-success result is the status of the last invocation
performed (the first failure), after which no later pass is invoked; the run
returns success if and only if every pass and every post-pass validation
succeeds (the trace is complete and all-success). -/
theorem pipeline_run_order_and_first_failure {S : Type}
    (passes : List (S → Status × S)) (validator : S → Status) (sg : S) :
    IsInitSeg (((pipeline_run passes validator sg).2.2).map (fun e => (e.1, e.2.1)))
        (full_schedule 0 passes.length) ∧
    (∀ e ∈ ((pipeline_run passes validator sg).2.2).dropLast,
      e.2.2 = Status.success) ∧
    ((pipeline_run passes validator sg).1 = Status.success ↔
      (((pipeline_run passes validator sg).2.2).map (fun e => (e.1, e.2.1)) =
          full_schedule 0 passes.length ∧
        ∀ e ∈ (pipeline_run passes validator sg).2.2, e.2.2 = Status.success)) ∧
    ((pipeline_run passes validator sg).1 ≠ Status.success →
      ∃ j b, ((pipeline_run passes validator sg).2.2).getLast? =
        some (j, b, (pipeline_run passes validator sg).1)) :=
  pipeline_run_aux_spec validator passes 0 sg

/-- Witness for C4: a concrete two-pass pipeline on `Nat` subgraph state
whose second pass fails with `invalid_shape`. -/
theorem pipeline_run_order_and_first_failure_witness :
    IsInitSeg
        (((pipeline_run [fun s : Nat => (Status.success, s + 1),
            fun s : Nat => (Status.invalid_shape, s)]
            (fun _ => Status.success) 0).2.2).map (fun e => (e.1, e.2.1)))
        (full_schedule 0 2) ∧
    (∀ e ∈ ((pipeline_run [fun s : Nat => (Status.success, s + 1),
        fun s : Nat => (Status.invalid_shape, s)]
        (fun _ => Status.success) 0).2.2).dropLast, e.2.2 = Status.success) ∧
    ((pipeline_run [fun s : Nat => (Status.success, s + 1),
        fun s : Nat => (Status.invalid_shape, s)]
        (fun _ => Status.success) 0).1 = Status.success ↔
      (((pipeline_run [fun s : Nat => (Status.success, s + 1),
          fun s : Nat => (Status.invalid_shape, s)]
          (fun _ => Status.success) 0).2.2).map (fun e => (e.1, e.2.1)) =
          full_schedule 0 2 ∧
        ∀ e ∈ (pipeline_run [fun s : Nat => (Status.success, s + 1),
            fun s : Nat => (Status.invalid_shape, s)]
            (fun _ => Status.success) 0).2.2, e.2.2 = Status.success)) ∧
    ((pipeline_run [fun s : Nat => (Status.success, s + 1),
        fun s : Nat => (Status.invalid_shape, s)]
        (fun _ => Status.success) 0).1 ≠ Status.success →
      ∃ j b, ((pipeline_run [fun s : Nat => (Status.success, s + 1),
          fun s : Nat => (Status.invalid_shape, s)]
          (fun _ => Status.success) 0).2.2).getLast? =
        some (j, b, (pipeline_run [fun s : Nat => (Status.success, s + 1),
          fun s : Nat => (Status.invalid_shape, s)]
          (fun _ => Status.success) 0).1)) :=
  pipeline_run_order_and_first_failure
    [fun s : Nat => (Status.success, s + 1), fun s : Nat => (Status.invalid_shape, s)]
    (fun _ => Status.success) 0

theorem ticks_overlap_symm {b₁ b₂ : SchedBuffer} (h : ticks_overlap b₁ b₂) :
    ticks_overlap b₂ b₁ :=
  ⟨h.2, h.1⟩

theorem slot_inv_place (b : SchedBuffer) :
    ∀ ss : List SchedSlot, (∀ s ∈ ss, SlotInv s) →
      ∀ s ∈ place_buffer b ss, SlotInv s := by
  intro ss
  induction ss with
  | nil =>
    intro _ s hs
    simp only [place_buffer, List.mem_singleton] at hs
    subst hs
    refine ⟨?_, List.pairwise_singleton _ _⟩
    intro m hm
    obtain rfl := List.mem_singleton.1 hm
    exact ⟨Nat.le_refl _, Nat.le_refl _⟩
  | cons s₀ rest ih =>
    intro hss s hs
    simp only [place_buffer] at hs
    by_cases hlt : s₀.slot_lrt < b.fat
    · rw [if_pos hlt] at hs
      rcases List.mem_cons.1 hs with rfl | hs'
      · have hinv₀ := hss s₀ (List.mem_cons_self _ _)
        refine ⟨?_, ?_⟩
        · intro m hm
          rcases List.mem_append.1 hm with hm' | hm'
          · obtain ⟨h₁, h₂⟩ := hinv₀.1 m hm'
            exact ⟨Nat.le_trans h₁ (Nat.le_max_left _ _),
                   Nat.le_trans h₂ (Nat.le_max_left _ _)⟩
          · obtain rfl := List.mem_singleton.1 hm'
            exact ⟨Nat.le_max_right _ _, Nat.le_max_right _ _⟩
        · rw [List.pairwise_append]
          refine ⟨hinv₀.2, List.pairwise_singleton _ _, ?_⟩
          intro m hm x hx
          obtain rfl := List.mem_singleton.1 hx
          intro hov
          have hml := (hinv₀.1 m hm).1
          have := hov.2
          omega
      · exact hss s (List.mem_cons_of_mem _ hs')
    · rw [if_neg hlt] at hs
      rcases List.mem_cons.1 hs with rfl | hs'
      · exact hss s (List.mem_cons_self _ _)
      · exact ih (fun t ht => hss t (List.mem_cons_of_mem _ ht)) s hs'

theorem slot_inv_fold :
    ∀ (bs : List SchedBuffer) (ss : List SchedSlot), (∀ s ∈ ss, SlotInv s) →
      ∀ s ∈ bs.foldl (fun ss b => place_buffer b ss) ss, SlotInv s
  | [], _, h => h
  | b :: bs, ss, h => by
    rw [List.foldl_cons]
    exact slot_inv_fold bs (place_buffer b ss) (slot_inv_place b ss h)

theorem slot_inv_schedule (bs : List SchedBuffer) :
    ∀ s ∈ buffer_schedule bs, SlotInv s :=
  slot_inv_fold bs [] (by simp)

theorem slot_entries_lb :
    ∀ (l : List SchedSlot) (base : Nat) (b : SchedBuffer) (o : Nat),
      (b, o) ∈ slot_entries l base → base ≤ o := by
  intro l
  induction l with
  | nil => intro base b o h; cases h
  | cons s rest ih =>
    intro base b o h
    simp only [slot_entries] at h
    rcases List.mem_append.1 h with h' | h'
    · obtain ⟨a, -, ha⟩ := List.mem_map.1 h'
      obtain rfl : base = o := congrArg Prod.snd ha
      exact Nat.le_refl _
    · exact Nat.le_trans (Nat.le_add_right _ _) (ih (base + s.slot_size) b o h')

theorem slot_entries_sound :
    ∀ l : List SchedSlot, (∀ s ∈ l, SlotInv s) →
      ∀ (base : Nat) (b₁ : SchedBuffer) (o₁ : Nat) (b₂ : SchedBuffer) (o₂ : Nat),
        (b₁, o₁) ∈ slot_entries l base → (b₂, o₂) ∈ slot_entries l base →
        ticks_overlap b₁ b₂ → b₁ ≠ b₂ →
        ranges_disjoint o₁ b₁.size o₂ b₂.size := by
  intro l
  induction l with
  | nil => intro _ base b₁ o₁ b₂ o₂ h1; cases h1
  | cons s rest ih =>
    intro hinv base b₁ o₁ b₂ o₂ h1 h2 hov hne
    have hs := hinv s (List.mem_cons_self _ _)
    have hsymm : Symmetric (fun x y : SchedBuffer => ¬ ticks_overlap x y) := by
      intro x y h hov'
      exact h (ticks_overlap_symm hov')
    simp only [slot_entries] at h1 h2
    rcases List.mem_append.1 h1 with h1' | h1' <;>
      rcases List.mem_append.1 h2 with h2' | h2'
    · obtain ⟨a₁, ha₁, he₁⟩ := List.mem_map.1 h1'
      obtain ⟨a₂, ha₂, he₂⟩ := List.mem_map.1 h2'
      injection he₁ with h1a h1b
      injection he₂ with h2a h2b
      have hb₁ : b₁ ∈ s.members := h1a ▸ ha₁
      have hb₂ : b₂ ∈ s.members := h2a ▸ ha₂
      exact absurd hov (hs.2.forall hsymm hb₁ hb₂ hne)
    · obtain ⟨a₁, ha₁, he₁⟩ := List.mem_map.1 h1'
      injection he₁ with h1a h1b
      have hb₁ : b₁ ∈ s.members := h1a ▸ ha₁
      have ho₁ : o₁ = base := h1b.symm
      have hsz := (hs.1 b₁ hb₁).2
      have hlb := slot_entries_lb rest (base + s.slot_size) b₂ o₂ h2'
      show o₁ + b₁.size ≤ o₂ ∨ o₂ + b₂.size ≤ o₁
      exact Or.inl (by omega)
    · obtain ⟨a₂, ha₂, he₂⟩ := List.mem_map.1 h2'
      injection he₂ with h2a h2b
      have hb₂ : b₂ ∈ s.members := h2a ▸ ha₂
      have ho₂ : o₂ = base := h2b.symm
      have hsz := (hs.1 b₂ hb₂).2
      have hlb := slot_entries_lb rest (base + s.slot_size) b₁ o₁ h1'
      show o₁ + b₁.size ≤ o₂ ∨ o₂ + b₂.size ≤ o₁
      exact Or.inr (by omega)
    · exact ih (fun t ht => hinv t (List.mem_cons_of_mem _ ht))
        (base + s.slot_size) b₁ o₁ b₂ o₂ h1' h2' hov hne

/-- C6.  Memory-plan soundness: in the offset assignment produced by the
tick-based buffer scheduler, no two temporary buffers whose liveness tick
intervals overlap are given overlapping offset ranges — storage is reused
only by a buffer whose first-access tick is strictly after the reused
slot's last-read tick (in-place aliased pairs are excluded from the
planning input). -/
theorem memory_plan_soundness (bs : List SchedBuffer) (b₁ : SchedBuffer) (o₁ : Nat)
    (b₂ : SchedBuffer) (o₂ : Nat)
    (h1 : (b₁, o₁) ∈ buffer_offsets bs) (h2 : (b₂, o₂) ∈ buffer_offsets bs)
    (hov : ticks_overlap b₁ b₂) (hne : b₁ ≠ b₂) :
    ranges_disjoint o₁ b₁.size o₂ b₂.size :=
  slot_entries_sound (buffer_schedule bs) (slot_inv_schedule bs) 0 b₁ o₁ b₂ o₂
    h1 h2 hov hne

/-- Witness for C6: two buffers with intersecting liveness (ticks 0-2 and
2-5) are placed at offsets 0 and 100, and the theorem yields disjointness
of their byte ranges. -/
theorem memory_plan_soundness_witness :
    ((⟨0, 100, 0, 2⟩, 0) ∈
        buffer_offsets [⟨0, 100, 0, 2⟩, ⟨1, 50, 2, 5⟩] ∧
      ((⟨1, 50, 2, 5⟩ : SchedBuffer), 100) ∈
        buffer_offsets [⟨0, 100, 0, 2⟩, ⟨1, 50, 2, 5⟩] ∧
      ticks_overlap ⟨0, 100, 0, 2⟩ ⟨1, 50, 2, 5⟩ ∧
      (⟨0, 100, 0, 2⟩ : SchedBuffer) ≠ ⟨1, 50, 2, 5⟩) ∧
    ranges_disjoint 0 (100 : Nat) 100 50 :=
  ⟨⟨by decide, by decide, by decide, by decide⟩,
    memory_plan_soundness [⟨0, 100, 0, 2⟩, ⟨1, 50, 2, 5⟩] ⟨0, 100, 0, 2⟩ 0
      ⟨1, 50, 2, 5⟩ 100 (by decide) (by decide) (by decide) (by decide)⟩

end OneDnnGraph
